import Mathlib

/-!
Shallow embedding of the virtual-microphone program (`src/main.rs`).

The decoder pipeline (`AudioDecoder`), buffer-fill service (`fill_buffer`),
virtual-device provisioner (`VirtualDevice::new`) and its teardown
(`impl Drop for VirtualDevice`) are translated from the Rust source.

Modelling conventions:
* `f32`/`f64` sample arithmetic is modelled as exact rational arithmetic (`ℚ`);
  floating-point rounding is not modelled.
* The external decode capability (symphonia) is modelled as the stream of
  events the container produces per open: each `next_packet` yields either a
  packet (with its track id and the result of decoding it) or a non-EOF format
  error; end-of-stream is the end of the event list.  Reopening the same file
  (the looping path) replays the same event list.
* The external daemon control utility (`pactl`) is modelled by an environment
  recording, for each load command, whether the process exits successfully and
  whether its stdout parses as a module id.  The commands the program issues
  are collected in a trace.
-/

namespace VirtualMic

/-- `SAMPLE_RATE` constant from the source (48000). -/
def SAMPLE_RATE : Nat := 48000

/-- `CHANNELS` constant from the source (mono). -/
def CHANNELS : Nat := 1

/-- A successfully decoded audio block: the interleaved sample data together
with the channel count of its signal spec (`decoded.spec()`), as handed to
`SampleBuffer::copy_interleaved_ref`. -/
structure Block where
  channels : Nat
  samples : List ℚ
deriving DecidableEq

/-- One `format.next_packet()` outcome other than end-of-stream:
`pkt tid res` is a packet on track `tid` whose `decoder.decode` call returns
a block (`res = some b`) or a packet-level decode error (`res = none`);
`fmtErr` is a non-EOF format error.  End-of-stream is the end of the list. -/
inductive Event
  | pkt (tid : Nat) (res : Option Block)
  | fmtErr
deriving DecidableEq

/-- State of `AudioDecoder` (opened): `file` is the event stream the source
file produces on each open, `events` the part of the currently open stream not
yet consumed, `buffer` the `VecDeque<f32>` sample FIFO.  `source_rate` models
`source_sample_rate.unwrap_or(SAMPLE_RATE)`.  The not-yet-opened early error
paths (`Not opened` / `No decoder` / `No track`) are outside this model: `main`
opens the decoder before streaming starts. -/
structure AudioDecoder where
  file : List Event
  events : List Event
  buffer : List ℚ
  loop_audio : Bool
  volume : ℚ
  source_rate : Nat
  track_id : Nat
deriving DecidableEq

/-- The mono downmix loop: `for i in (0..samples.len()).step_by(ch)` pushes
`(sum of samples.get(i+k) for k < ch) / ch * volume`.  A trailing incomplete
frame is averaged over the frame members present but still divided by `ch`,
exactly as `filter_map`/`sum`/`/ ch` do.  (`ch = 0` would panic in Rust via
`step_by(0)`; real tracks have at least one channel, and the model returns `[]`
there.) -/
def downmix (ch : Nat) (vol : ℚ) (samples : List ℚ) : List ℚ :=
  if h : ch = 0 ∨ samples = [] then []
  else ((samples.take ch).sum / (ch : ℚ)) * vol :: downmix ch vol (samples.drop ch)
termination_by samples.length
decreasing_by
  push_neg at h
  have hpos : 0 < samples.length := List.length_pos.mpr h.2
  simp only [List.length_drop]
  omega

/-- The linear resampling block of `decode_more`: drains the whole buffer into
`old`, computes `new_len = (old_len * ratio) as usize` (truncation of a
non-negative value, i.e. floor) and for each output index the interpolated
sample, faithfully to the source including the `idx0 < old.len()` guard and
`idx1 = (idx0 + 1).min(old.len() - 1)`. -/
def resample (src : Nat) (old : List ℚ) : List ℚ :=
  (List.range ⌊(old.length : ℚ) * ((SAMPLE_RATE : ℚ) / (src : ℚ))⌋₊).map (fun (i : Nat) =>
    let srcIdx : ℚ := (i : ℚ) / ((SAMPLE_RATE : ℚ) / (src : ℚ))
    let idx0 : Nat := ⌊srcIdx⌋₊
    let idx1 : Nat := min (idx0 + 1) (old.length - 1)
    let frac : ℚ := srcIdx - (idx0 : ℚ)
    if idx0 < old.length then
      old.getD idx0 0 * (1 - frac) + old.getD idx1 0 * frac
    else 0)

/-- Processing of one successfully decoded block inside `decode_more`: the
downmixed, volume-scaled samples are appended to the buffer, then, if the
source rate differs from `SAMPLE_RATE`, the whole buffer is drained and
replaced by its resampled image. -/
def processBlock (s : AudioDecoder) (b : Block) : List ℚ :=
  let buf := s.buffer ++ downmix b.channels s.volume b.samples
  if s.source_rate ≠ SAMPLE_RATE then resample s.source_rate buf else buf

/-- The only error `decode_more` propagates in the model: a non-EOF format
error from `next_packet` (`Err(e) => return Err(e.into())`). -/
inductive DecodeErr
  | fmt
deriving DecidableEq

/-- The `loop` body of `decode_more`, recursing over the remaining events:
skip packets of other tracks, skip (warn) packet-level decode errors, return
`true` after processing a decoded block; at end-of-stream re-open (replay the
file) and return `true` when looping, else return `false`; propagate other
format errors. -/
def decodeMoreAux (s : AudioDecoder) : List Event → Except DecodeErr (Bool × AudioDecoder)
  | [] =>
      if s.loop_audio then .ok (true, { s with events := s.file })
      else .ok (false, { s with events := [] })
  | .fmtErr :: _ => .error .fmt
  | .pkt tid res :: rest =>
      if tid ≠ s.track_id then decodeMoreAux s rest
      else match res with
        | none => decodeMoreAux s rest
        | some b => .ok (true, { s with events := rest, buffer := processBlock s b })

/-- `AudioDecoder::decode_more`. -/
def decode_more (s : AudioDecoder) : Except DecodeErr (Bool × AudioDecoder) :=
  decodeMoreAux s s.events

/-- Result of a `fill_buffer` call: `ok output filled st` models `Ok(filled)`
with the written output slice and the decoder state after the call; `err` the
propagated decode error; `diverge` marks that the outer `while` loop did not
finish within the given fuel. -/
inductive FillOut
  | ok (output : List ℚ) (filled : Nat) (st : AudioDecoder)
  | err
  | diverge
deriving DecidableEq

/-- The outer `while filled < output.len()` loop of `fill_buffer`, one unit of
fuel per iteration.  `acc` is the prefix of the output slice written so far.
Each iteration: if the buffer is empty call `decode_more`; on "no more data"
zero-fill the remainder and return `Ok(output.len())`; otherwise the inner
drain loop pops `min (n - filled) (buffer length)` samples into the output. -/
def fillLoop : Nat → AudioDecoder → Nat → List ℚ → FillOut
  | 0, s, n, acc => if n ≤ acc.length then .ok acc acc.length s else .diverge
  | fuel + 1, s, n, acc =>
    if n ≤ acc.length then .ok acc acc.length s
    else if s.buffer.isEmpty then
      match decode_more s with
      | .error _ => .err
      | .ok (more, s1) =>
        if more then
          fillLoop fuel { s1 with buffer := s1.buffer.drop (min (n - acc.length) s1.buffer.length) }
            n (acc ++ s1.buffer.take (min (n - acc.length) s1.buffer.length))
        else
          .ok (acc ++ List.replicate (n - acc.length) 0) n s1
    else
      fillLoop fuel { s with buffer := s.buffer.drop (min (n - acc.length) s.buffer.length) }
        n (acc ++ s.buffer.take (min (n - acc.length) s.buffer.length))

/-- `AudioDecoder::fill_buffer` on an output slice of length `n`. -/
def fill_buffer (fuel : Nat) (s : AudioDecoder) (n : Nat) : FillOut :=
  fillLoop fuel s n []

/-- Outcome of one `pactl load-module` invocation: the process fails
(non-success exit status), or succeeds with a stdout that parses as a module
id, or succeeds with an unparsable stdout. -/
inductive CmdResult
  | fail
  | okParse (id : Nat)
  | okNoParse
deriving DecidableEq

/-- Environment for one `VirtualDevice::new` call: the outcome of each of the
three possible load commands (null sink, remap source, loopback). -/
structure Env where
  sinkLoad : CmdResult
  remapLoad : CmdResult
  loopbackLoad : CmdResult
deriving DecidableEq

/-- A `pactl` command issued by the program, as recorded in the trace. -/
inductive PactlCmd
  | loadSink
  | loadRemap
  | loadLoopback
  | unload (id : Nat)
deriving DecidableEq

/-- The error returns of `VirtualDevice::new`: "Failed to create null sink",
"Failed to parse module ID", "Failed to create remap source", "Failed to
parse remap module ID". -/
inductive ProvError
  | sinkCreateFailed
  | sinkParseFailed
  | sourceCreateFailed
  | sourceParseFailed
deriving DecidableEq

/-- The `VirtualDevice` struct: module ids of the null sink (`module_id`),
remap source and optional loopback, plus the derived names. -/
structure VirtualDevice where
  module_id : Option Nat
  remap_module_id : Option Nat
  loopback_module_id : Option Nat
  sink_name : String
  source_name : String
deriving DecidableEq

/-- `VirtualDevice::new(name, monitor)`: returns the trace of `pactl` commands
issued, and the handle or the error.  Step 1 loads the null sink; step 2 loads
the remap source and on command failure unloads the sink before returning an
error; step 3, only in monitor mode, loads the loopback, whose failure (or
unparsable id) is non-fatal and leaves the loopback id absent. -/
def provision (env : Env) (name : String) (monitor : Bool) :
    List PactlCmd × Except ProvError VirtualDevice :=
  let sink_name := name ++ "_sink"
  match env.sinkLoad with
  | .fail => ([.loadSink], .error .sinkCreateFailed)
  | .okNoParse => ([.loadSink], .error .sinkParseFailed)
  | .okParse sid =>
    match env.remapLoad with
    | .fail => ([.loadSink, .loadRemap, .unload sid], .error .sourceCreateFailed)
    | .okNoParse => ([.loadSink, .loadRemap], .error .sourceParseFailed)
    | .okParse rid =>
      if monitor then
        match env.loopbackLoad with
        | .fail =>
            ([.loadSink, .loadRemap, .loadLoopback],
              .ok ⟨some sid, some rid, none, sink_name, name⟩)
        | .okNoParse =>
            ([.loadSink, .loadRemap, .loadLoopback],
              .ok ⟨some sid, some rid, none, sink_name, name⟩)
        | .okParse lid =>
            ([.loadSink, .loadRemap, .loadLoopback],
              .ok ⟨some sid, some rid, some lid, sink_name, name⟩)
      else ([.loadSink, .loadRemap], .ok ⟨some sid, some rid, none, sink_name, name⟩)

/-- `impl Drop for VirtualDevice`: unloads, in this order, the loopback, the
remap source and the null sink, each only when its id is present. -/
def dropTrace (h : VirtualDevice) : List PactlCmd :=
  (h.loopback_module_id.map PactlCmd.unload).toList ++
  (h.remap_module_id.map PactlCmd.unload).toList ++
  (h.module_id.map PactlCmd.unload).toList

/-- The module ids handed out by the daemon for the load commands the program
issues, in load-call order: sink, remap source, then (in monitor mode) the
loopback. -/
def loadSuccessIds (env : Env) (monitor : Bool) : List Nat :=
  (match env.sinkLoad with | .okParse i => [i] | _ => []) ++
  (match env.remapLoad with | .okParse i => [i] | _ => []) ++
  (if monitor then (match env.loopbackLoad with | .okParse i => [i] | _ => []) else [])

/-- The ways `main` can exit after provisioning succeeded: the PipeWire
mainloop quits (runtime fill failure signalled via `ml.quit()`, then `run()`
returns and `main` returns `Ok`), an error is propagated with `?` during
stream setup, or the Ctrl+C path fires. -/
inductive ExitPath
  | mainloopQuit
  | setupError
  | signalExit
deriving DecidableEq

/-- The `pactl` commands issued for the handle on each exit path of `main`.
On `mainloopQuit` and `setupError` the handle goes out of scope and its `Drop`
runs.  On `signalExit` the timer callback observes the cancellation flag and
calls `std::process::exit(0)`, which terminates the process immediately
without running destructors on any stack, so `Drop` never runs and no unload
command is issued. -/
def shutdownTrace (h : VirtualDevice) : ExitPath → List PactlCmd
  | .mainloopQuit => dropTrace h
  | .setupError => dropTrace h
  | .signalExit => []

instance {ε α : Type _} [DecidableEq ε] [DecidableEq α] : DecidableEq (Except ε α)
  | .error e, .error f =>
    if h : e = f then .isTrue (congrArg Except.error h)
    else .isFalse (fun hc => h (Except.error.inj hc))
  | .error _, .ok _ => .isFalse Except.noConfusion
  | .ok _, .error _ => .isFalse Except.noConfusion
  | .ok a, .ok b =>
    if h : a = b then .isTrue (congrArg Except.ok h)
    else .isFalse (fun hc => h (Except.ok.inj hc))

/-- `t` is a decoder state for the same source as `s`: same file event stream
and same construction-time parameters.  (`decode_more` never changes these:
re-opening the same file re-captures the same track metadata.) -/
def SameSource (s t : AudioDecoder) : Prop :=
  t.file = s.file ∧ t.loop_audio = s.loop_audio ∧ t.volume = s.volume ∧
  t.source_rate = s.source_rate ∧ t.track_id = s.track_id

/-- A `decode_more` call from an empty buffer that reports "more data" yet
appends nothing: the non-progress step of the outer `fill_buffer` loop. -/
def Stall (t u : AudioDecoder) : Prop :=
  t.buffer = [] ∧ decode_more t = .ok (true, u) ∧ u.buffer = []

/-- The termination precondition of the claim: every `decode_more` reporting
"more data" either appends a sample, or only finitely many consecutive such
calls append nothing — expressed as a ranking function that strictly
decreases across every stall step between reachable states (same source,
events a suffix of the file). -/
def BoundedStalls (s : AudioDecoder) : Prop :=
  ∃ μ : AudioDecoder → Nat, ∀ t u, SameSource s t → t.events <:+ t.file → Stall t u → μ u < μ t

/-- A looping source every one of whose decoded blocks is empty: one packet on
the selected track decoding to a block with no samples, with looping enabled.
Every `decode_more` reports "more data" but never appends a sample. -/
def emptyBlockLoop : AudioDecoder :=
  ⟨[.pkt 0 (some ⟨2, []⟩)], [.pkt 0 (some ⟨2, []⟩)], [], true, 1, SAMPLE_RATE, 0⟩

/-- A one-packet non-looping source producing a single sample, used to
instantiate theorems about concrete runs. -/
def oneSampleSource : AudioDecoder :=
  ⟨[.pkt 0 (some ⟨1, [1]⟩)], [.pkt 0 (some ⟨1, [1]⟩)], [], false, 1, SAMPLE_RATE, 0⟩

/-- The state of `emptyBlockLoop` after its single packet was consumed. -/
def emptyBlockLoopDrained : AudioDecoder :=
  ⟨[.pkt 0 (some ⟨2, []⟩)], [], [], true, 1, SAMPLE_RATE, 0⟩

/-- C2: on the signal-triggered exit path the claim fails on the code: the
timer callback calls `std::process::exit(0)`, which terminates the process
without running `VirtualDevice::drop`, so for a fully provisioned handle no
unload command is issued on signal exit, although running its teardown would
issue three.  (The spec requires teardown on every exit path including
signal exit.) -/
theorem signal_exit_skips_teardown :
    shutdownTrace ⟨some 1, some 2, some 3, "VirtualMic_sink", "VirtualMic"⟩ ExitPath.signalExit
        = [] ∧
    dropTrace ⟨some 1, some 2, some 3, "VirtualMic_sink", "VirtualMic"⟩
        = [PactlCmd.unload 3, PactlCmd.unload 2, PactlCmd.unload 1] := by
  exact ⟨rfl, rfl⟩

/-- C5: if the remap-source load command fails after the sink was created with
module id `sid`, `VirtualDevice::new` issues exactly the commands load-sink,
load-remap, unload `sid` (the rollback) and returns the SourceCreateFailed
error — so no sink module created by this call remains loaded. -/
theorem remap_failure_rolls_back_sink (env : Env) (name : String) (monitor : Bool) (sid : Nat)
    (hs : env.sinkLoad = .okParse sid) (hr : env.remapLoad = .fail) :
    provision env name monitor =
      ([.loadSink, .loadRemap, .unload sid], .error .sourceCreateFailed) := by
  simp [provision, hs, hr]

/-- C5 witness. -/
theorem remap_failure_rolls_back_sink_witness :
    provision ⟨.okParse 7, .fail, .fail⟩ "VirtualMic" false =
      ([.loadSink, .loadRemap, .unload 7], .error .sourceCreateFailed) :=
  remap_failure_rolls_back_sink ⟨.okParse 7, .fail, .fail⟩ "VirtualMic" false 7 rfl rfl

/-- C6: for every handle returned by `VirtualDevice::new`, the unload commands
issued by its `Drop` are exactly the module ids created by the load calls, in
the reverse of load-call order (sink, remap, loopback), a module that was not
created being skipped. -/
theorem teardown_reverse_of_load_order (env : Env) (name : String) (monitor : Bool)
    (tr : List PactlCmd) (h : VirtualDevice)
    (hp : provision env name monitor = (tr, .ok h)) :
    dropTrace h = ((loadSuccessIds env monitor).reverse).map PactlCmd.unload := by
  obtain ⟨sl, rl, ll⟩ := env
  cases sl <;> cases rl <;> cases ll <;> cases monitor <;>
    simp [provision] at hp
  all_goals obtain ⟨-, hh⟩ := hp
  all_goals subst hh
  all_goals simp [dropTrace, loadSuccessIds]

/-- C6 witness. -/
theorem teardown_reverse_of_load_order_witness :
    dropTrace ⟨some 4, some 5, some 6, "VirtualMic_sink", "VirtualMic"⟩ =
      ((loadSuccessIds ⟨.okParse 4, .okParse 5, .okParse 6⟩ true).reverse).map PactlCmd.unload :=
  teardown_reverse_of_load_order ⟨.okParse 4, .okParse 5, .okParse 6⟩ "VirtualMic" true
    [.loadSink, .loadRemap, .loadLoopback]
    ⟨some 4, some 5, some 6, "VirtualMic_sink", "VirtualMic"⟩ rfl

/-- C7: at end-of-stream, `decode_more` with looping enabled re-opens the same
source (replaying its event stream) and returns `true`; with looping disabled
it returns `false` without an error. -/
theorem decode_more_eof (s : AudioDecoder) (h : s.events = []) :
    (s.loop_audio = true → decode_more s = .ok (true, { s with events := s.file })) ∧
    (s.loop_audio = false → decode_more s = .ok (false, { s with events := [] })) := by
  constructor <;> intro hl <;> simp [decode_more, h, decodeMoreAux, hl]

/-- C7 witness: a looping decoder at end-of-stream reports more data and has
its event stream reset to the file's. -/
theorem decode_more_eof_witness :
    decode_more ⟨[.fmtErr], [], [], true, 1, 48000, 0⟩ =
      .ok (true, ⟨[.fmtErr], [.fmtErr], [], true, 1, 48000, 0⟩) :=
  (decode_more_eof ⟨[.fmtErr], [], [], true, 1, 48000, 0⟩ rfl).1 rfl

/-- C8: if the loopback load command fails in monitor mode after sink and
remap-source were created, `VirtualDevice::new` still returns a handle whose
sink and remap-source ids are present and whose loopback id is absent. -/
theorem loopback_failure_nonfatal (env : Env) (name : String) (sid rid : Nat)
    (hs : env.sinkLoad = .okParse sid) (hr : env.remapLoad = .okParse rid)
    (hl : env.loopbackLoad = .fail) :
    provision env name true =
      ([.loadSink, .loadRemap, .loadLoopback],
        .ok ⟨some sid, some rid, none, name ++ "_sink", name⟩) := by
  simp [provision, hs, hr, hl]

/-- C8 witness. -/
theorem loopback_failure_nonfatal_witness :
    provision ⟨.okParse 11, .okParse 12, .fail⟩ "VirtualMic" true =
      ([.loadSink, .loadRemap, .loadLoopback],
        .ok ⟨some 11, some 12, none, "VirtualMic" ++ "_sink", "VirtualMic"⟩) :=
  loopback_failure_nonfatal ⟨.okParse 11, .okParse 12, .fail⟩ "VirtualMic" 11 12 rfl rfl rfl

/-- C9: every handle returned by `VirtualDevice::new` has both the sink and
the remap-source module ids present (hence "both present or both absent"
holds), while the loopback id may be present or absent independently: both
outcomes are realized by successful provisionings. -/
theorem handle_invariant_sink_remap :
    (∀ (env : Env) (name : String) (monitor : Bool) (tr : List PactlCmd) (h : VirtualDevice),
      provision env name monitor = (tr, .ok h) →
      h.module_id.isSome = true ∧ h.remap_module_id.isSome = true) ∧
    (∃ (env : Env) (tr : List PactlCmd) (h : VirtualDevice),
      provision env "VirtualMic" true = (tr, .ok h) ∧ h.loopback_module_id.isSome = true) ∧
    (∃ (env : Env) (tr : List PactlCmd) (h : VirtualDevice),
      provision env "VirtualMic" true = (tr, .ok h) ∧ h.loopback_module_id = none) := by
  refine ⟨?_, ⟨⟨.okParse 1, .okParse 2, .okParse 3⟩, _, _, rfl, rfl⟩,
    ⟨⟨.okParse 1, .okParse 2, .fail⟩, _, _, rfl, rfl⟩⟩
  intro env name monitor tr h hp
  obtain ⟨sl, rl, ll⟩ := env
  cases sl <;> cases rl <;> cases ll <;> cases monitor <;>
    simp [provision] at hp
  all_goals obtain ⟨-, hh⟩ := hp
  all_goals subst hh
  all_goals simp

lemma downmix_nil (ch : Nat) (vol : ℚ) : downmix ch vol [] = [] := by
  unfold downmix
  simp

lemma downmix_cons (ch : Nat) (vol : ℚ) (samples : List ℚ)
    (h0 : ch ≠ 0) (hs : samples ≠ []) :
    downmix ch vol samples =
      ((samples.take ch).sum / (ch : ℚ)) * vol :: downmix ch vol (samples.drop ch) := by
  rw [downmix]
  rw [dif_neg (by push_neg; exact ⟨h0, hs⟩)]

lemma downmix_getD (ch : Nat) (vol : ℚ) :
    ∀ (j : Nat) (samples : List ℚ), 0 < ch → ch * (j + 1) ≤ samples.length →
      (downmix ch vol samples).getD j 0 =
        (((samples.drop (ch * j)).take ch).sum / (ch : ℚ)) * vol := by
  intro j
  induction j with
  | zero =>
    intro samples hch hlen
    have hs : samples ≠ [] := by
      intro he
      rw [he] at hlen
      simp at hlen
      omega
    rw [downmix_cons ch vol samples (Nat.pos_iff_ne_zero.mp hch) hs]
    simp
  | succ j ih =>
    intro samples hch hlen
    have hmul : ch * (j + 1 + 1) = ch * (j + 1) + ch := by ring
    have hs : samples ≠ [] := by
      intro he
      rw [he] at hlen
      simp at hlen
      omega
    rw [downmix_cons ch vol samples (Nat.pos_iff_ne_zero.mp hch) hs]
    have hrec := ih (samples.drop ch) hch (by
      simp only [List.length_drop]
      omega)
    simp only [List.getD_cons_succ]
    rw [hrec, List.drop_drop]
    have hadd : ch + ch * j = ch * (j + 1) := by ring
    rw [hadd]

/-- C4: each mono sample appended for a complete frame is the arithmetic mean
of that frame's source-channel samples times the volume multiplier (frame `j`
of a `ch`-channel block is `samples[ch*j .. ch*j+ch)`); for a stereo frame
`[a, b]` the appended value is `(a+b)/2 * volume`; and `decode_more` on a
successfully decoded packet appends exactly the downmixed scaled samples to
the buffer (no resampling when the source rate equals the target rate). -/
theorem downmix_mean_times_volume :
    (∀ (ch : Nat) (vol : ℚ) (samples : List ℚ) (j : Nat),
      0 < ch → ch * (j + 1) ≤ samples.length →
      (downmix ch vol samples).getD j 0 =
        (((samples.drop (ch * j)).take ch).sum / (ch : ℚ)) * vol) ∧
    (∀ (vol a b : ℚ), downmix 2 vol [a, b] = [((a + b) / 2) * vol]) ∧
    (∀ (s : AudioDecoder) (b : Block) (rest : List Event),
      s.events = .pkt s.track_id (some b) :: rest → s.source_rate = SAMPLE_RATE →
      decode_more s = .ok (true, { s with
        events := rest
        buffer := s.buffer ++ downmix b.channels s.volume b.samples })) := by
  refine ⟨fun ch vol samples j hch hlen => downmix_getD ch vol j samples hch hlen, ?_, ?_⟩
  · intro vol a b
    rw [downmix_cons 2 vol [a, b] (by omega) (by simp)]
    simp [downmix_nil]
  · intro s b rest hev hrate
    simp [decode_more, hev, decodeMoreAux, processBlock, hrate]

/-- C4 witness: the mean-times-volume law at a concrete stereo block. -/
theorem downmix_mean_times_volume_witness :
    (downmix 2 2 [1, 3, 5, 7]).getD 1 0 =
      (((([1, 3, 5, 7] : List ℚ).drop (2 * 1)).take 2).sum / (2 : ℚ)) * 2 :=
  downmix_mean_times_volume.1 2 2 [1, 3, 5, 7] 1 (by omega) (by simp)

lemma resample_length (src : Nat) (old : List ℚ) :
    (resample src old).length = ⌊(old.length : ℚ) * ((SAMPLE_RATE : ℚ) / (src : ℚ))⌋₊ := by
  simp [resample]

lemma resample_getD (src : Nat) (old : List ℚ) (i : Nat)
    (hi : i < ⌊(old.length : ℚ) * ((SAMPLE_RATE : ℚ) / (src : ℚ))⌋₊) :
    (resample src old).getD i 0 =
      if ⌊(i : ℚ) / ((SAMPLE_RATE : ℚ) / (src : ℚ))⌋₊ < old.length then
        old.getD ⌊(i : ℚ) / ((SAMPLE_RATE : ℚ) / (src : ℚ))⌋₊ 0 *
          (1 - ((i : ℚ) / ((SAMPLE_RATE : ℚ) / (src : ℚ)) -
            (⌊(i : ℚ) / ((SAMPLE_RATE : ℚ) / (src : ℚ))⌋₊ : ℚ))) +
        old.getD (min (⌊(i : ℚ) / ((SAMPLE_RATE : ℚ) / (src : ℚ))⌋₊ + 1) (old.length - 1)) 0 *
          ((i : ℚ) / ((SAMPLE_RATE : ℚ) / (src : ℚ)) -
            (⌊(i : ℚ) / ((SAMPLE_RATE : ℚ) / (src : ℚ))⌋₊ : ℚ))
      else 0 := by
  have hlen : i < (resample src old).length := by rw [resample_length]; exact hi
  unfold resample
  rw [List.getD_eq_getElem _ _ (by simpa [resample] using hlen)]
  simp only [List.getElem_map, List.getElem_range]

/-- C3: when the source rate differs from the target rate, every output index
`i` of the resampled buffer is the linear interpolation at source position
`i / ratio` (with `ratio = SAMPLE_RATE / src`) between the floor neighbor and
its successor clamped to the buffer bounds — the floor index itself always
lands inside the buffer — and `decode_more` on a successfully decoded packet
replaces the whole buffer (previous contents plus the new downmixed samples)
by its resampled image. -/
theorem resample_linear_interpolation :
    (∀ (src : Nat), 0 < src → src ≠ SAMPLE_RATE →
      ∀ (old : List ℚ) (i : Nat), i < (resample src old).length →
        ⌊(i : ℚ) / ((SAMPLE_RATE : ℚ) / (src : ℚ))⌋₊ < old.length ∧
        (resample src old).getD i 0 =
          old.getD ⌊(i : ℚ) / ((SAMPLE_RATE : ℚ) / (src : ℚ))⌋₊ 0 *
            (1 - ((i : ℚ) / ((SAMPLE_RATE : ℚ) / (src : ℚ)) -
              (⌊(i : ℚ) / ((SAMPLE_RATE : ℚ) / (src : ℚ))⌋₊ : ℚ))) +
          old.getD (min (⌊(i : ℚ) / ((SAMPLE_RATE : ℚ) / (src : ℚ))⌋₊ + 1) (old.length - 1)) 0 *
            ((i : ℚ) / ((SAMPLE_RATE : ℚ) / (src : ℚ)) -
              (⌊(i : ℚ) / ((SAMPLE_RATE : ℚ) / (src : ℚ))⌋₊ : ℚ))) ∧
    (∀ (s : AudioDecoder) (b : Block) (rest : List Event),
      s.events = .pkt s.track_id (some b) :: rest → s.source_rate ≠ SAMPLE_RATE →
      decode_more s = .ok (true, { s with
        events := rest
        buffer := resample s.source_rate (s.buffer ++ downmix b.channels s.volume b.samples) })) := by
  constructor
  · intro src hsrc _ old i hi
    have hr : (0 : ℚ) < (SAMPLE_RATE : ℚ) / (src : ℚ) := by
      apply div_pos
      · norm_num [SAMPLE_RATE]
      · exact_mod_cast hsrc
    have hlen : (resample src old).length =
        ⌊(old.length : ℚ) * ((SAMPLE_RATE : ℚ) / (src : ℚ))⌋₊ := resample_length src old
    have hi2 : i < ⌊(old.length : ℚ) * ((SAMPLE_RATE : ℚ) / (src : ℚ))⌋₊ := hlen ▸ hi
    have hiq : (i : ℚ) < (old.length : ℚ) * ((SAMPLE_RATE : ℚ) / (src : ℚ)) := by
      have h1 : ((i : ℚ)) < (⌊(old.length : ℚ) * ((SAMPLE_RATE : ℚ) / (src : ℚ))⌋₊ : ℚ) := by
        exact_mod_cast hi2
      exact h1.trans_le (Nat.floor_le (by positivity))
    have hsrcIdx : (i : ℚ) / ((SAMPLE_RATE : ℚ) / (src : ℚ)) < (old.length : ℚ) := by
      rw [div_lt_iff₀ hr]
      exact hiq
    have hidx0 : ⌊(i : ℚ) / ((SAMPLE_RATE : ℚ) / (src : ℚ))⌋₊ < old.length := by
      rw [Nat.floor_lt (by positivity)]
      exact_mod_cast hsrcIdx
    refine ⟨hidx0, ?_⟩
    rw [resample_getD src old i hi2]
    rw [if_pos hidx0]
  · intro s b rest hev hrate
    simp [decode_more, hev, decodeMoreAux, processBlock, hrate]

/-- C3 witness: interpolation law at a concrete 44100 Hz buffer, index 1. -/
theorem resample_linear_interpolation_witness :
    ⌊(1 : ℚ) / ((SAMPLE_RATE : ℚ) / ((44100 : Nat) : ℚ))⌋₊ < ([0, 1] : List ℚ).length ∧
    (resample 44100 [0, 1]).getD 1 0 =
      ([0, 1] : List ℚ).getD ⌊(1 : ℚ) / ((SAMPLE_RATE : ℚ) / ((44100 : Nat) : ℚ))⌋₊ 0 *
        (1 - ((1 : ℚ) / ((SAMPLE_RATE : ℚ) / ((44100 : Nat) : ℚ)) -
          (⌊(1 : ℚ) / ((SAMPLE_RATE : ℚ) / ((44100 : Nat) : ℚ))⌋₊ : ℚ))) +
      ([0, 1] : List ℚ).getD (min (⌊(1 : ℚ) / ((SAMPLE_RATE : ℚ) / ((44100 : Nat) : ℚ))⌋₊ + 1)
          (([0, 1] : List ℚ).length - 1)) 0 *
        ((1 : ℚ) / ((SAMPLE_RATE : ℚ) / ((44100 : Nat) : ℚ)) -
          (⌊(1 : ℚ) / ((SAMPLE_RATE : ℚ) / ((44100 : Nat) : ℚ))⌋₊ : ℚ)) :=
  resample_linear_interpolation.1 44100 (by omega) (by decide) [0, 1] 1 (by
    rw [resample_length]
    rw [show (⌊(([0, 1] : List ℚ).length : ℚ) * ((SAMPLE_RATE : ℚ) / ((44100 : Nat) : ℚ))⌋₊ : Nat)
        = 2 from by
      rw [Nat.floor_eq_iff (by positivity)]
      norm_num [SAMPLE_RATE]]
    omega)

lemma fillLoop_ok_filled (n : Nat) :
    ∀ (fuel : Nat) (s : AudioDecoder) (acc out : List ℚ) (filled : Nat) (s1 : AudioDecoder),
      acc.length ≤ n → fillLoop fuel s n acc = .ok out filled s1 →
      filled = n ∧ out.length = n := by
  intro fuel
  induction fuel with
  | zero =>
    intro s acc out filled s1 hle heq
    simp only [fillLoop] at heq
    split at heq
    · injection heq with h1 h2 h3
      subst h1 h2
      omega
    · simp at heq
  | succ fuel ih =>
    intro s acc out filled s1 hle heq
    simp only [fillLoop] at heq
    split at heq
    · injection heq with h1 h2 h3
      subst h1 h2
      omega
    · rename_i hn
      split at heq
      · cases hdm : decode_more s with
        | error e =>
          rw [hdm] at heq
          simp at heq
        | ok p =>
          obtain ⟨more, s2⟩ := p
          rw [hdm] at heq
          cases more with
          | false =>
            simp only [Bool.false_eq_true, if_false] at heq
            injection heq with h1 h2 h3
            subst h1 h2
            refine ⟨rfl, ?_⟩
            simp only [List.length_append, List.length_replicate]
            omega
          | true =>
            simp only [if_true] at heq
            refine ih _ _ out filled s1 ?_ heq
            simp only [List.length_append, List.length_take]
            omega
      · refine ih _ _ out filled s1 ?_ heq
        simp only [List.length_append, List.length_take]
        omega

/-- C1: whenever `fill_buffer` on an output slice of length `n` returns
`Ok(filled)` (i.e. does not fail with a decode error), `filled = n` and the
written output has exactly `n` samples; and on the call at end-of-stream
(empty buffer, `decode_more` reporting no more data) the whole slice is
zero-filled and `n` is still returned rather than an error. -/
theorem fill_buffer_returns_exact_count :
    (∀ (fuel n : Nat) (s : AudioDecoder) (out : List ℚ) (filled : Nat) (s1 : AudioDecoder),
      fill_buffer fuel s n = .ok out filled s1 → filled = n ∧ out.length = n) ∧
    (∀ (fuel n : Nat) (s s1 : AudioDecoder), s.buffer = [] →
      decode_more s = .ok (false, s1) → 0 < fuel → 0 < n →
      fill_buffer fuel s n = .ok (List.replicate n 0) n s1) := by
  constructor
  · intro fuel n s out filled s1 heq
    exact fillLoop_ok_filled n fuel s [] out filled s1 (by simp) heq
  · intro fuel n s s1 hb hdm hfuel hn
    obtain ⟨fuel', rfl⟩ : ∃ k, fuel = k + 1 := ⟨fuel - 1, by omega⟩
    simp only [fill_buffer, fillLoop, List.length_nil, Nat.le_zero, List.isEmpty_iff, hb, hdm,
      if_true]
    rw [if_neg (by omega)]
    simp [hb, hdm]

/-- C1 witness: at end-of-stream a 4-sample request is fully silence-filled
and reported as 4 samples. -/
theorem fill_buffer_returns_exact_count_witness :
    fill_buffer 1 ⟨[], [], [], false, 1, 48000, 0⟩ 4 =
      .ok (List.replicate 4 0) 4 ⟨[], [], [], false, 1, 48000, 0⟩ :=
  fill_buffer_returns_exact_count.2 1 4 ⟨[], [], [], false, 1, 48000, 0⟩
    ⟨[], [], [], false, 1, 48000, 0⟩ rfl rfl (by omega) (by omega)

lemma decodeMoreAux_ok (s : AudioDecoder) :
    ∀ (evs : List Event) (more : Bool) (t : AudioDecoder),
      decodeMoreAux s evs = .ok (more, t) →
      t.file = s.file ∧ t.loop_audio = s.loop_audio ∧ t.volume = s.volume ∧
      t.source_rate = s.source_rate ∧ t.track_id = s.track_id ∧
      (t.events = s.file ∨ t.events <:+ evs) := by
  intro evs
  induction evs with
  | nil =>
    intro more t heq
    simp only [decodeMoreAux] at heq
    by_cases hl : s.loop_audio
    · rw [if_pos hl] at heq
      injection heq with h1
      injection h1 with hm ht
      subst ht
      exact ⟨rfl, rfl, rfl, rfl, rfl, Or.inl rfl⟩
    · rw [if_neg hl] at heq
      injection heq with h1
      injection h1 with hm ht
      subst ht
      exact ⟨rfl, rfl, rfl, rfl, rfl, Or.inr (List.suffix_refl _)⟩
  | cons e rest ih =>
    intro more t heq
    cases e with
    | fmtErr => simp [decodeMoreAux] at heq
    | pkt tid res =>
      simp only [decodeMoreAux] at heq
      by_cases htid : tid ≠ s.track_id
      · rw [if_pos htid] at heq
        obtain ⟨h1, h2, h3, h4, h5, h6⟩ := ih more t heq
        refine ⟨h1, h2, h3, h4, h5, ?_⟩
        rcases h6 with h | h
        · exact Or.inl h
        · exact Or.inr (h.trans (List.suffix_cons _ _))
      · rw [if_neg htid] at heq
        cases res with
        | none =>
          obtain ⟨h1, h2, h3, h4, h5, h6⟩ := ih more t heq
          refine ⟨h1, h2, h3, h4, h5, ?_⟩
          rcases h6 with h | h
          · exact Or.inl h
          · exact Or.inr (h.trans (List.suffix_cons _ _))
        | some b =>
          injection heq with h1
          injection h1 with hm ht
          subst ht
          exact ⟨rfl, rfl, rfl, rfl, rfl, Or.inr (List.suffix_cons _ _)⟩

lemma decode_more_reach {s0 s : AudioDecoder} (hss : SameSource s0 s)
    (hsuf : s.events <:+ s.file) {more : Bool} {t : AudioDecoder}
    (hdm : decode_more s = .ok (more, t)) :
    SameSource s0 t ∧ t.events <:+ t.file := by
  obtain ⟨hf, hl, hv, hr, hti, hev⟩ := decodeMoreAux_ok s s.events more t hdm
  obtain ⟨h1, h2, h3, h4, h5⟩ := hss
  refine ⟨⟨hf.trans h1, hl.trans h2, hv.trans h3, hr.trans h4, hti.trans h5⟩, ?_⟩
  rcases hev with h | h
  · rw [h, hf]
  · rw [hf]
    exact h.trans hsuf

lemma fillLoop_succ_decode (fuel n : Nat) (t u : AudioDecoder) (acc : List ℚ)
    (hn : ¬ n ≤ acc.length) (hb : t.buffer = [])
    (hdm : decode_more t = .ok (true, u)) :
    fillLoop (fuel + 1) t n acc =
      fillLoop fuel { u with buffer := u.buffer.drop (min (n - acc.length) u.buffer.length) }
        n (acc ++ u.buffer.take (min (n - acc.length) u.buffer.length)) := by
  simp only [fillLoop]
  rw [if_neg hn, if_pos (by simp [hb]), hdm]
  rfl

lemma fillLoop_succ_drain (fuel n : Nat) (t : AudioDecoder) (acc : List ℚ)
    (hn : ¬ n ≤ acc.length) (hb : ¬ t.buffer = []) :
    fillLoop (fuel + 1) t n acc =
      fillLoop fuel { t with buffer := t.buffer.drop (min (n - acc.length) t.buffer.length) }
        n (acc ++ t.buffer.take (min (n - acc.length) t.buffer.length)) := by
  simp only [fillLoop]
  rw [if_neg hn, if_neg (by simp [hb])]

lemma fillLoop_terminates_aux (s0 : AudioDecoder) (n : Nat) (μ : AudioDecoder → Nat)
    (hμ : ∀ t u, SameSource s0 t → t.events <:+ t.file → Stall t u → μ u < μ t) :
    ∀ (d m : Nat) (t : AudioDecoder) (acc : List ℚ),
      SameSource s0 t → t.events <:+ t.file → n - acc.length ≤ d → μ t ≤ m →
      ∃ fuel, fillLoop fuel t n acc ≠ FillOut.diverge := by
  intro d
  induction d with
  | zero =>
    intro m t acc _ _ hd _
    have hn : n ≤ acc.length := by omega
    exact ⟨0, by simp [fillLoop, hn]⟩
  | succ d ihd =>
    intro m
    induction m using Nat.strong_induction_on with
    | _ m ihm =>
      intro t acc hss hsuf hd hm
      by_cases hn : n ≤ acc.length
      · exact ⟨0, by simp [fillLoop, hn]⟩
      · by_cases hb : t.buffer = []
        · cases hdm : decode_more t with
          | error e =>
            refine ⟨1, ?_⟩
            simp only [fillLoop]
            rw [if_neg hn, if_pos (by simp [hb]), hdm]
            simp
          | ok p =>
            obtain ⟨more, u⟩ := p
            cases more with
            | false =>
              refine ⟨1, ?_⟩
              simp only [fillLoop]
              rw [if_neg hn, if_pos (by simp [hb]), hdm]
              simp
            | true =>
              obtain ⟨hss2, hsuf2⟩ := decode_more_reach hss hsuf hdm
              by_cases hub : u.buffer = []
              · have hlt : μ u < μ t := hμ t u hss hsuf ⟨hb, hdm, hub⟩
                obtain ⟨fuel, hf⟩ :=
                  ihm (μ u) (by omega) u acc hss2 hsuf2 hd (le_refl _)
                have hueq : ({ u with buffer := ([] : List ℚ) } : AudioDecoder) = u := by
                  rw [← hub]
                refine ⟨fuel + 1, ?_⟩
                rw [fillLoop_succ_decode fuel n t u acc hn hb hdm, hub]
                simp only [List.drop_nil, List.take_nil, List.append_nil]
                rw [hueq]
                exact hf
              · have hl : 0 < u.buffer.length := List.length_pos.mpr hub
                obtain ⟨fuel, hf⟩ := ihd (μ { u with
                    buffer := u.buffer.drop (min (n - acc.length) u.buffer.length) })
                  { u with buffer := u.buffer.drop (min (n - acc.length) u.buffer.length) }
                  (acc ++ u.buffer.take (min (n - acc.length) u.buffer.length))
                  hss2 hsuf2
                  (by
                    simp only [List.length_append, List.length_take]
                    omega)
                  (le_refl _)
                refine ⟨fuel + 1, ?_⟩
                rw [fillLoop_succ_decode fuel n t u acc hn hb hdm]
                exact hf
        · have hl : 0 < t.buffer.length := List.length_pos.mpr hb
          obtain ⟨fuel, hf⟩ := ihd (μ { t with
              buffer := t.buffer.drop (min (n - acc.length) t.buffer.length) })
            { t with buffer := t.buffer.drop (min (n - acc.length) t.buffer.length) }
            (acc ++ t.buffer.take (min (n - acc.length) t.buffer.length))
            hss hsuf
            (by
              simp only [List.length_append, List.length_take]
              omega)
            (le_refl _)
          refine ⟨fuel + 1, ?_⟩
          rw [fillLoop_succ_drain fuel n t acc hn hb]
          exact hf

lemma decode_more_emptyBlockLoop :
    decode_more emptyBlockLoop = .ok (true, emptyBlockLoopDrained) := by
  simp [decode_more, emptyBlockLoop, emptyBlockLoopDrained, decodeMoreAux, processBlock,
    downmix_nil]

lemma decode_more_emptyBlockLoopDrained :
    decode_more emptyBlockLoopDrained = .ok (true, emptyBlockLoop) := by
  simp [decode_more, emptyBlockLoop, emptyBlockLoopDrained, decodeMoreAux]

lemma emptyBlockLoop_diverges :
    ∀ fuel : Nat, fillLoop fuel emptyBlockLoop 1 [] = FillOut.diverge ∧
      fillLoop fuel emptyBlockLoopDrained 1 [] = FillOut.diverge := by
  intro fuel
  induction fuel with
  | zero => exact ⟨by simp [fillLoop], by simp [fillLoop]⟩
  | succ fuel ih =>
    constructor
    · rw [fillLoop_succ_decode fuel 1 _ _ [] (by simp) rfl decode_more_emptyBlockLoop]
      rw [show emptyBlockLoopDrained.buffer = ([] : List ℚ) from rfl]
      simp only [List.drop_nil, List.take_nil, List.append_nil, List.nil_append]
      rw [show ({ emptyBlockLoopDrained with buffer := ([] : List ℚ) } : AudioDecoder) =
          emptyBlockLoopDrained from rfl]
      exact ih.2
    · rw [fillLoop_succ_decode fuel 1 _ _ [] (by simp) rfl decode_more_emptyBlockLoopDrained]
      rw [show emptyBlockLoop.buffer = ([] : List ℚ) from rfl]
      simp only [List.drop_nil, List.take_nil, List.append_nil, List.nil_append]
      rw [show ({ emptyBlockLoop with buffer := ([] : List ℚ) } : AudioDecoder) =
          emptyBlockLoop from rfl]
      exact ih.1

/-- C10: the outer loop of `fill_buffer` terminates for every request when
every "more data" report from `decode_more` either appends a sample or stalls
(appends nothing from an empty buffer) only along a well-founded ranking —
and without that precondition it need not: for a looping source all of whose
decoded blocks are empty, `fill_buffer` runs out of any amount of fuel, i.e.
the outer loop never makes progress and does not terminate. -/
theorem fill_buffer_termination :
    (∀ (s : AudioDecoder) (n : Nat), s.events <:+ s.file → BoundedStalls s →
      ∃ fuel, fill_buffer fuel s n ≠ FillOut.diverge) ∧
    (∀ fuel : Nat, fill_buffer fuel emptyBlockLoop 1 = FillOut.diverge) := by
  constructor
  · intro s n hsuf hbs
    obtain ⟨μ, hμ⟩ := hbs
    exact fillLoop_terminates_aux s n μ hμ n (μ s) s [] ⟨rfl, rfl, rfl, rfl, rfl⟩ hsuf
      (by simp) (le_refl _)
  · intro fuel
    exact (emptyBlockLoop_diverges fuel).1

/-- C10 witness: a concrete productive source (one packet, one sample, no
looping) satisfies the bounded-stall precondition — it never stalls at all —
so its `fill_buffer` terminates. -/
theorem fill_buffer_termination_witness :
    ∃ fuel, fill_buffer fuel oneSampleSource 5 ≠ FillOut.diverge := by
  refine fill_buffer_termination.1 oneSampleSource 5 (List.suffix_refl _) ⟨fun _ => 0, ?_⟩
  intro t u hss hsuf hst
  exfalso
  obtain ⟨hf, hl, hv, hr, hti⟩ := hss
  simp only [oneSampleSource] at hf hl hv hr hti
  obtain ⟨htb, hdm, hub⟩ := hst
  have hcases : t.events = [] ∨ t.events = [Event.pkt 0 (some ⟨1, [1]⟩)] := by
    rw [hf] at hsuf
    obtain ⟨p, hp⟩ := hsuf
    cases p with
    | nil => right; simpa using hp
    | cons x xs =>
      left
      have hlen := congrArg List.length hp
      simp only [List.length_append, List.length_cons, List.length_nil] at hlen
      have : t.events.length = 0 := by omega
      exact List.length_eq_zero.mp this
  rcases hcases with he | he
  · rw [decode_more, he] at hdm
    simp only [decodeMoreAux, hl] at hdm
    simp at hdm
  · have hpb : processBlock t ⟨1, [1]⟩ = [1] := by
      simp only [processBlock]
      rw [if_neg (by simp [hr, SAMPLE_RATE])]
      rw [htb, hv]
      rw [downmix_cons 1 1 [1] one_ne_zero (by simp)]
      simp [downmix_nil]
    rw [decode_more, he] at hdm
    simp only [decodeMoreAux, hti, ne_eq, not_true_eq_false, if_false] at hdm
    rw [hpb] at hdm
    injection hdm with h1
    injection h1 with hmore hu
    rw [← hu] at hub
    simp at hub

/-- C9 witness: the invariant at a concrete successful provisioning. -/
theorem handle_invariant_sink_remap_witness :
    (⟨some 1, some 2, none, "VirtualMic_sink", "VirtualMic"⟩ :
        VirtualDevice).module_id.isSome = true ∧
    (⟨some 1, some 2, none, "VirtualMic_sink", "VirtualMic"⟩ :
        VirtualDevice).remap_module_id.isSome = true :=
  handle_invariant_sink_remap.1 ⟨.okParse 1, .okParse 2, .fail⟩ "VirtualMic" false
    [.loadSink, .loadRemap] ⟨some 1, some 2, none, "VirtualMic_sink", "VirtualMic"⟩ rfl

end VirtualMic
